import Mathlib

/-!
A shallow embedding of the `boto3async` package (`src/boto3async/__init__.py`)
and proofs about it.

* `_camel_to_snake` is embedded as two character-scanning passes (`sub1`,
  `sub2`) that implement the two `re.sub` rewrites of the source, followed by
  lowercasing, exactly as the Python function composes them.
* A boto3 client is embedded as an attribute map (ordered association list)
  together with the declared operation-name list; `getattr`/`setattr` follow
  Python attribute semantics (lookup by name; `setattr` overwrites or appends).
* Python callables relevant here are embedded as functions from an ambient
  `contextvars` context and an argument tuple to an outcome (`ok` value,
  `raised` exception, or the `TypeError` of calling a non-callable).
* `_to_thread` is embedded in two stages: scheduling captures a snapshot of
  the caller's context (`contextvars.copy_context`) and builds the
  `functools.partial(ctx.run, func, *args)` closure; the worker thread then
  evaluates that closure under its own ambient context, which `ctx.run`
  ignores in favour of the snapshot.
* In-place mutation of the client is embedded as explicit state passing: the
  augmentation loop threads the client through and returns the final state,
  paired with `none` on success or `some name` for the `AttributeError`
  raised by `getattr` at a missing attribute name (the paired state is the
  state of the mutated object at the moment the exception propagates).
-/

namespace Boto3Async

/-- The regex character class `[A-Z]` (ASCII uppercase). -/
def isUpperA (c : Char) : Bool := 65 ≤ c.toNat && c.toNat ≤ 90

/-- The regex character class `[a-z]` (ASCII lowercase). -/
def isLowerA (c : Char) : Bool := 97 ≤ c.toNat && c.toNat ≤ 122

/-- The regex character class `[0-9]` (ASCII digit). -/
def isDigitA (c : Char) : Bool := 48 ≤ c.toNat && c.toNat ≤ 57

/-- The regex `.`: any character except a newline. -/
def isDot (c : Char) : Bool := !(c == '\n')

/--
First pass of `_camel_to_snake`:
`re.sub('(.)([A-Z][a-z]+)', r'\x7b1_\x7b2', name)` (with backslash-1 and
backslash-2 group references), scanning left to right for non-overlapping
matches, `[a-z]+` greedy, resuming after each matched span.  The `fuel`
argument only makes the recursion structural; `sub1` supplies `l.length`,
which is always sufficient because every recursive call consumes at least
one character.
-/
def sub1go : Nat → List Char → List Char
  | 0, l => l
  | _ + 1, [] => []
  | _ + 1, [c] => [c]
  | fuel + 1, c :: d :: rest =>
    match rest with
    | [] => [c, d]
    | e :: rest2 =>
      if isDot c && isUpperA d && isLowerA e then
        c :: '_' :: d :: e ::
          (rest2.takeWhile isLowerA ++ sub1go fuel (rest2.dropWhile isLowerA))
      else
        c :: sub1go fuel (d :: e :: rest2)

/-- First rewrite pass of `_camel_to_snake` on a character list. -/
def sub1 (l : List Char) : List Char := sub1go l.length l

/--
Second pass of `_camel_to_snake`:
`re.sub('([a-z0-9])([A-Z])', r'\x7b1_\x7b2', name)`, scanning left to right
for non-overlapping matches and resuming after each matched pair.
-/
def sub2 : List Char → List Char
  | [] => []
  | [c] => [c]
  | c :: d :: rest =>
    if (isLowerA c || isDigitA c) && isUpperA d then
      c :: '_' :: d :: sub2 rest
    else
      c :: sub2 (d :: rest)

/--
`_camel_to_snake` from the source: the two regex substitution passes applied
in order, then `.lower()` on the whole result.
-/
def _camel_to_snake (name : String) : String :=
  String.mk ((sub2 (sub1 name.data)).map Char.toLower)

/-- Outcome of calling a Python value: a returned value, a raised exception,
or the `TypeError` raised when the called value is not callable. -/
inductive CallResult (R E : Type) where
  | ok : R → CallResult R E
  | raised : E → CallResult R E
  | notCallable : CallResult R E

/-- Semantics of a Python callable as used by this library: a function from
the ambient `contextvars` context and the argument tuple to an outcome. -/
def Fn (C A R E : Type) : Type := C → A → CallResult R E

/-- A Python attribute value: a callable with the given semantics, or a
plain non-callable datum. -/
inductive PyVal (C A R E : Type) where
  | callable : Fn C A R E → PyVal C A R E
  | data : Nat → PyVal C A R E

variable {C A R E : Type}

/-- Calling a Python value: a callable runs its semantics; calling a
non-callable raises `TypeError`, embedded as `notCallable`. -/
def callVal : PyVal C A R E → Fn C A R E
  | .callable f => f
  | .data _ => fun _ _ => .notCallable

/-- `contextvars.copy_context()`: an immutable snapshot of the caller's
ambient context, taken at call time.  A context is a value here, so the
snapshot is the value itself. -/
def copy_context (ctx : C) : C := ctx

/-- The closure `functools.partial(ctx.run, func, *args, **kwargs)` built by
`_to_thread`, as a function of the ambient context of whatever worker thread
eventually evaluates it: `ctx.run` discards that ambient context and runs
`func(*args, **kwargs)` under the captured snapshot instead. -/
def func_call (snapshot : C) (f : Fn C A R E) (args : A) : C → CallResult R E :=
  fun _workerAmbient => f snapshot args

/-- `_to_thread(func, *args, **kwargs)` called by a caller whose ambient
context is `callerCtx`: snapshot the caller's context and build the closure
handed to `loop.run_in_executor`.  Applying the result to a worker thread's
ambient context gives the outcome the awaiting caller is resumed with. -/
def _to_thread (f : Fn C A R E) (callerCtx : C) (args : A) : C → CallResult R E :=
  func_call (copy_context callerCtx) f args

/-- `create_async_func(sync_func)` from `asyncify_client`: the coroutine
function attached under the `_async` name.  Awaiting it with arguments
`args` under ambient context `ctx` awaits `_to_thread(sync_func, *args)`;
the worker's ambient context does not affect the outcome (`func_call`
ignores it), so the awaited outcome is evaluated at the caller's context. -/
def create_async_func (sync_func : PyVal C A R E) : PyVal C A R E :=
  .callable (fun ctx args => _to_thread (callVal sync_func) ctx args ctx)

/-- A boto3 client: the declared operation names of its service model and
its attribute map (an ordered association list, first binding wins). -/
structure Client (C A R E : Type) where
  operation_names : List String
  attrs : List (String × PyVal C A R E)

/-- Attribute lookup in an attribute list. -/
def lookupAttr : List (String × PyVal C A R E) → String → Option (PyVal C A R E)
  | [], _ => none
  | (m, w) :: rest, n => if m = n then some w else lookupAttr rest n

/-- `getattr(client, n)` returning `none` for the `AttributeError` case. -/
def getattrOpt (c : Client C A R E) (n : String) : Option (PyVal C A R E) :=
  lookupAttr c.attrs n

/-- `setattr` on an attribute list: overwrite the existing binding for the
name, or append a new one. -/
def setAttrList : List (String × PyVal C A R E) → String → PyVal C A R E →
    List (String × PyVal C A R E)
  | [], n, v => [(n, v)]
  | (m, w) :: rest, n, v =>
    if m = n then (n, v) :: rest else (m, w) :: setAttrList rest n v

/-- `setattr(client, n, v)`. -/
def setattr (c : Client C A R E) (n : String) (v : PyVal C A R E) :
    Client C A R E :=
  { c with attrs := setAttrList c.attrs n v }

/-- The derived name under which `asyncify_client` attaches the wrapper for
operation `op`. -/
def asyncName (op : String) : String := _camel_to_snake op ++ "_async"

/-- All derived `_async` attribute names for a list of operations. -/
def asyncNames (ops : List String) : List String := ops.map asyncName

/-- The `for operation in client._service_model.operation_names` loop of
`asyncify_client`, with in-place mutation embedded as state passing.  The
result pairs the client state with `none` on success, or with
`some derived_name` when `getattr` raises `AttributeError` for that derived
name: the loop halts there and the state at that moment is returned as the
state of the mutated object when the exception propagates. -/
def asyncifyLoop : List String → Client C A R E → Client C A R E × Option String
  | [], c => (c, none)
  | op :: rest, c =>
    let name := _camel_to_snake op
    match getattrOpt c name with
    | none => (c, some name)
    | some sync_func =>
      asyncifyLoop rest (setattr c (name ++ "_async") (create_async_func sync_func))

/-- `asyncify_client(client)`: run the augmentation loop over the client's
declared operation names.  On success the source returns the same (mutated)
client object; here that object is the first component. -/
def asyncify_client (c : Client C A R E) : Client C A R E × Option String :=
  asyncifyLoop c.operation_names c

/-- `client(*args, **kwargs)`: construct a client via the external SDK
(abstracted as `boto3_client`) and augment it. -/
def client {Args : Type} (boto3_client : Args → Client C A R E) (args : Args) :
    Client C A R E × Option String :=
  asyncify_client (boto3_client args)

/-- `resource(*args, **kwargs)`: pure delegation to the external SDK's
resource constructor (abstracted as `boto3_resource`), with no augmentation. -/
def resource {Args Res : Type} (boto3_resource : Args → Res) (args : Args) : Res :=
  boto3_resource args

/-- A concrete client for evaluation: one operation `TestVariable` whose
synchronous method `test_variable` returns 7. -/
def clientW : Client Nat Nat Nat Nat :=
  ⟨["TestVariable"], [("test_variable", PyVal.callable (fun _ _ => CallResult.ok 7))]⟩

/-- A concrete client for evaluation whose second declared operation's
derived snake-case name (`missing_op`) names no attribute. -/
def clientMissing : Client Nat Nat Nat Nat :=
  ⟨["FooBar", "MissingOp"], [("foo_bar", PyVal.callable (fun _ _ => CallResult.ok 1))]⟩

/-- The state of `clientMissing` after the loop has processed `FooBar`. -/
def clientMissingPre : Client Nat Nat Nat Nat :=
  (asyncifyLoop ["FooBar"] clientMissing).1

/-- A concrete client that already has a plain-data attribute under a
derived `_async` name: operation `Foo`, sync method `foo`, pre-existing
non-callable attribute `foo_async`. -/
def clientClash : Client Nat Nat Nat Nat :=
  ⟨["Foo"],
   [("foo", PyVal.callable (fun _ _ => CallResult.ok 1)), ("foo_async", PyVal.data 0)]⟩

/-- A concrete client for evaluation with one operation and one unrelated
plain-data attribute `keep_me`. -/
def clientFrame : Client Nat Nat Nat Nat :=
  ⟨["TestVariable"],
   [("test_variable", PyVal.callable (fun _ _ => CallResult.ok 7)),
    ("keep_me", PyVal.data 5)]⟩

/-- Sync semantics of operation `GetFoo` of `clientCollide`: returns 1. -/
def c7f1 : Fn Nat Nat Nat Nat := fun _ _ => CallResult.ok 1

/-- Sync semantics of operation `GetFooAsync` of `clientCollide`: returns 2. -/
def c7f2 : Fn Nat Nat Nat Nat := fun _ _ => CallResult.ok 2

/-- A concrete client whose declared operations collide under the naming
convention: `_camel_to_snake "GetFooAsync" = "get_foo_async"`, which is also
the derived `_async` attribute name for operation `GetFoo`. -/
def clientCollide : Client Nat Nat Nat Nat :=
  ⟨["GetFoo", "GetFooAsync"],
   [("get_foo", PyVal.callable c7f1), ("get_foo_async", PyVal.callable c7f2)]⟩

/-- `clientCollide` after one augmentation pass. -/
def clientCollide1 : Client Nat Nat Nat Nat := (asyncify_client clientCollide).1

/-- `clientCollide` after two augmentation passes. -/
def clientCollide2 : Client Nat Nat Nat Nat := (asyncify_client clientCollide1).1

end Boto3Async

namespace Boto3Async

variable {C A R E : Type}

/--
C1: `_camel_to_snake` is exactly the specified three-step rewrite — the
first-pass insertion (`sub1`), then the lowercase-or-digit/uppercase
boundary insertion (`sub2`), then lowercasing the whole result — and it
maps the four authoritative examples to their specified snake-case forms.
-/
theorem camel_to_snake_rewrite_and_examples :
    (∀ s : String, _camel_to_snake s = String.mk ((sub2 (sub1 s.data)).map Char.toLower)) ∧
    _camel_to_snake "TestVariable" = "test_variable" ∧
    _camel_to_snake "Test123Variable" = "test123_variable" ∧
    _camel_to_snake "testVariable" = "test_variable" ∧
    _camel_to_snake "testHTTPMethod" = "test_http_method" :=
  ⟨fun _ => rfl, by decide, by decide, by decide, by decide⟩

/--
C3: for every wrapped operation, every ambient context and every argument
tuple, if the original synchronous callable returns a value, then awaiting
the `_async` wrapper built by `create_async_func` with the identical
arguments yields exactly that value.
-/
theorem async_wrapper_same_result (v : PyVal C A R E) (ctx : C) (args : A) (r : R)
    (h : callVal v ctx args = CallResult.ok r) :
    callVal (create_async_func v) ctx args = CallResult.ok r := h

/-- Witness for C3 at a concrete callable, context and argument. -/
theorem async_wrapper_same_result_witness :
    callVal (PyVal.callable (fun _ _ => CallResult.ok 5) : PyVal Nat Nat Nat Nat) 0 0 =
      CallResult.ok 5 ∧
    callVal (create_async_func (PyVal.callable (fun _ _ => CallResult.ok 5) :
      PyVal Nat Nat Nat Nat)) 0 0 = CallResult.ok 5 :=
  ⟨rfl, async_wrapper_same_result _ 0 0 5 rfl⟩

/--
C4: for every wrapped operation and arguments, if the original synchronous
callable raises, then awaiting the `_async` wrapper with the same arguments
propagates exactly the same raised failure — same kind and payload, not
retried, not re-wrapped, not suppressed.
-/
theorem async_wrapper_propagates_raise (v : PyVal C A R E) (ctx : C) (args : A) (e : E)
    (h : callVal v ctx args = CallResult.raised e) :
    callVal (create_async_func v) ctx args = CallResult.raised e := h

/-- Witness for C4 at a concrete raising callable. -/
theorem async_wrapper_propagates_raise_witness :
    callVal (PyVal.callable (fun _ _ => CallResult.raised 3) : PyVal Nat Nat Nat Nat) 0 0 =
      CallResult.raised 3 ∧
    callVal (create_async_func (PyVal.callable (fun _ _ => CallResult.raised 3) :
      PyVal Nat Nat Nat Nat)) 0 0 = CallResult.raised 3 :=
  ⟨rfl, async_wrapper_propagates_raise _ 0 0 3 rfl⟩

/--
C8: every invocation of `_to_thread` snapshots the caller's ambient context
at call time and the worker thread runs the function under exactly that
snapshot: the outcome is the function applied to the captured context and
the call's own arguments, it is independent of the worker thread's ambient
context, and two invocations with their own contexts and arguments are
isolated — each outcome depends only on its own captured context and
arguments.
-/
theorem to_thread_context_snapshot_isolation (f g : Fn C A R E)
    (c1 c2 w1 w2 : C) (a1 a2 : A) :
    _to_thread f c1 a1 w1 = f (copy_context c1) a1 ∧
    _to_thread f c1 a1 w1 = _to_thread f c1 a1 w2 ∧
    _to_thread g c2 a2 w2 = g (copy_context c2) a2 :=
  ⟨rfl, rfl, rfl⟩

/--
C9: `resource` returns exactly the object produced by the external SDK's
resource constructor on the given arguments, with no augmentation: every
attribute lookup on the returned object, in particular any `_async` name,
gives exactly what the unaugmented constructed object gives.
-/
theorem resource_no_augmentation {Args : Type} (ext : Args → Client C A R E) (args : Args) :
    resource ext args = ext args ∧
    ∀ n : String, getattrOpt (resource ext args) n = getattrOpt (ext args) n :=
  ⟨rfl, fun _ => rfl⟩

theorem lookup_setAttrList_self (l : List (String × PyVal C A R E)) (n : String)
    (v : PyVal C A R E) : lookupAttr (setAttrList l n v) n = some v := by
  induction l with
  | nil => simp [setAttrList, lookupAttr]
  | cons p rest ih =>
    obtain ⟨m, w⟩ := p
    by_cases h : m = n
    · simp [setAttrList, h, lookupAttr]
    · simp [setAttrList, h, lookupAttr, ih]

theorem lookup_setAttrList_ne (l : List (String × PyVal C A R E)) {m n : String}
    (v : PyVal C A R E) (h : m ≠ n) :
    lookupAttr (setAttrList l m v) n = lookupAttr l n := by
  induction l with
  | nil => simp [setAttrList, lookupAttr, h]
  | cons p rest ih =>
    obtain ⟨k, w⟩ := p
    by_cases hk : k = m
    · simp [setAttrList, hk, lookupAttr, h]
    · simp [setAttrList, hk, lookupAttr, ih]

theorem getattr_setattr_self (c : Client C A R E) (n : String) (v : PyVal C A R E) :
    getattrOpt (setattr c n v) n = some v :=
  lookup_setAttrList_self c.attrs n v

theorem getattr_setattr_ne (c : Client C A R E) {m n : String} (v : PyVal C A R E)
    (h : m ≠ n) : getattrOpt (setattr c m v) n = getattrOpt c n :=
  lookup_setAttrList_ne c.attrs v h

theorem isSome_getattr_setattr (c : Client C A R E) (m n : String) (v : PyVal C A R E)
    (h : (getattrOpt c n).isSome = true) :
    (getattrOpt (setattr c m v) n).isSome = true := by
  by_cases hmn : m = n
  · subst hmn; rw [getattr_setattr_self]; rfl
  · rw [getattr_setattr_ne c v hmn]; exact h

theorem asyncifyLoop_cons_none {op : String} (rest : List String) {c : Client C A R E}
    (h : getattrOpt c (_camel_to_snake op) = none) :
    asyncifyLoop (op :: rest) c = (c, some (_camel_to_snake op)) := by
  simp only [asyncifyLoop, h]

theorem asyncifyLoop_cons_some {op : String} (rest : List String) {c : Client C A R E}
    {v : PyVal C A R E} (h : getattrOpt c (_camel_to_snake op) = some v) :
    asyncifyLoop (op :: rest) c =
      asyncifyLoop rest (setattr c (asyncName op) (create_async_func v)) := by
  simp only [asyncifyLoop, h, asyncName]

theorem operation_names_asyncifyLoop (ops : List String) :
    ∀ c : Client C A R E, ((asyncifyLoop ops c).1).operation_names = c.operation_names := by
  induction ops with
  | nil => intro c; rfl
  | cons op rest ih =>
    intro c
    cases h : getattrOpt c (_camel_to_snake op) with
    | none => rw [asyncifyLoop_cons_none rest h]
    | some v => rw [asyncifyLoop_cons_some rest h, ih]; rfl

theorem asyncifyLoop_ok (ops : List String) :
    ∀ c : Client C A R E,
      (∀ op ∈ ops, (getattrOpt c (_camel_to_snake op)).isSome = true) →
      (asyncifyLoop ops c).2 = none := by
  induction ops with
  | nil => intro c _; rfl
  | cons op rest ih =>
    intro c h
    obtain ⟨v, hv⟩ := Option.isSome_iff_exists.1 (h op (by simp))
    rw [asyncifyLoop_cons_some rest hv]
    exact ih _ fun op' hop' =>
      isSome_getattr_setattr _ _ _ _ (h op' (by simp [hop']))

theorem asyncifyLoop_keeps_callable (ops : List String) :
    ∀ (c : Client C A R E) (n : String),
      (∃ g, getattrOpt c n = some (PyVal.callable g)) →
      ∃ g', getattrOpt (asyncifyLoop ops c).1 n = some (PyVal.callable g') := by
  induction ops with
  | nil => intro c n h; exact h
  | cons op rest ih =>
    intro c n h
    cases hv : getattrOpt c (_camel_to_snake op) with
    | none => rw [asyncifyLoop_cons_none rest hv]; exact h
    | some v =>
      rw [asyncifyLoop_cons_some rest hv]
      obtain ⟨g, hg⟩ := h
      by_cases hmn : asyncName op = n
      · subst hmn
        exact ih _ _ ⟨_, getattr_setattr_self c _ (create_async_func v)⟩
      · exact ih _ _ ⟨g, by rw [getattr_setattr_ne c _ hmn]; exact hg⟩

theorem asyncifyLoop_attaches (ops : List String) :
    ∀ c : Client C A R E, (asyncifyLoop ops c).2 = none →
      ∀ op ∈ ops, ∃ g,
        getattrOpt (asyncifyLoop ops c).1 (asyncName op) = some (PyVal.callable g) := by
  induction ops with
  | nil => intro c _ op hop; cases hop
  | cons op rest ih =>
    intro c hok op' hop'
    cases hv : getattrOpt c (_camel_to_snake op) with
    | none =>
      rw [asyncifyLoop_cons_none rest hv] at hok
      cases hok
    | some v =>
      rw [asyncifyLoop_cons_some rest hv] at hok ⊢
      rcases List.mem_cons.1 hop' with heq | hmem
      · subst heq
        exact asyncifyLoop_keeps_callable rest _ _
          ⟨_, getattr_setattr_self c _ (create_async_func v)⟩
      · exact ih _ hok op' hmem

theorem asyncifyLoop_append (pre : List String) :
    ∀ (c c' : Client C A R E), asyncifyLoop pre c = (c', none) →
      ∀ rest, asyncifyLoop (pre ++ rest) c = asyncifyLoop rest c' := by
  induction pre with
  | nil =>
    intro c c' h rest
    cases h
    rfl
  | cons op pre' ih =>
    intro c c' h rest
    cases hv : getattrOpt c (_camel_to_snake op) with
    | none =>
      rw [asyncifyLoop_cons_none pre' hv] at h
      cases h
    | some v =>
      rw [asyncifyLoop_cons_some pre' hv] at h
      rw [List.cons_append, asyncifyLoop_cons_some (pre' ++ rest) hv]
      exact ih _ _ h rest

theorem asyncifyLoop_preserves (ops : List String) :
    ∀ (c : Client C A R E) (n : String), n ∉ asyncNames ops →
      getattrOpt (asyncifyLoop ops c).1 n = getattrOpt c n := by
  induction ops with
  | nil => intro c n _; rfl
  | cons op rest ih =>
    intro c n hn
    have hne : asyncName op ≠ n := by
      intro h; exact hn (by simp [asyncNames]; exact Or.inl h.symm)
    have hrest : n ∉ asyncNames rest := by
      intro h; apply hn
      simp [asyncNames] at h ⊢
      exact Or.inr h
    cases hv : getattrOpt c (_camel_to_snake op) with
    | none => rw [asyncifyLoop_cons_none rest hv]
    | some v =>
      rw [asyncifyLoop_cons_some rest hv, ih _ _ hrest,
        getattr_setattr_ne c _ hne]

theorem asyncifyLoop_keeps_present (ops : List String) :
    ∀ (c : Client C A R E) (n : String), (getattrOpt c n).isSome = true →
      (getattrOpt (asyncifyLoop ops c).1 n).isSome = true := by
  induction ops with
  | nil => intro c n h; exact h
  | cons op rest ih =>
    intro c n h
    cases hv : getattrOpt c (_camel_to_snake op) with
    | none => rw [asyncifyLoop_cons_none rest hv]; exact h
    | some v =>
      rw [asyncifyLoop_cons_some rest hv]
      exact ih _ _ (isSome_getattr_setattr _ _ _ _ h)

/--
C2: for every client whose every declared operation name, converted to
snake case, names an existing attribute, `asyncify_client` succeeds (no
`AttributeError`; the source then returns the mutated client itself, the
first component here), the declared operation set is unchanged, and for
every declared operation `op` the resulting client has an attribute named
`_camel_to_snake op ++ "_async"` bound to a callable value.
-/
theorem asyncify_client_success (c : Client C A R E)
    (h : ∀ op ∈ c.operation_names, (getattrOpt c (_camel_to_snake op)).isSome = true) :
    (asyncify_client c).2 = none ∧
    ((asyncify_client c).1).operation_names = c.operation_names ∧
    ∀ op ∈ c.operation_names, ∃ g,
      getattrOpt (asyncify_client c).1 (_camel_to_snake op ++ "_async") =
        some (PyVal.callable g) :=
  ⟨asyncifyLoop_ok c.operation_names c h,
   operation_names_asyncifyLoop c.operation_names c,
   asyncifyLoop_attaches c.operation_names c (asyncifyLoop_ok c.operation_names c h)⟩

/-- Witness for C2 at the concrete client `clientW`. -/
theorem asyncify_client_success_witness :
    (∀ op ∈ clientW.operation_names,
      (getattrOpt clientW (_camel_to_snake op)).isSome = true) ∧
    ((asyncify_client clientW).2 = none ∧
     ((asyncify_client clientW).1).operation_names = clientW.operation_names ∧
     ∀ op ∈ clientW.operation_names, ∃ g,
       getattrOpt (asyncify_client clientW).1 (_camel_to_snake op ++ "_async") =
         some (PyVal.callable g)) :=
  ⟨by decide, asyncify_client_success clientW (by decide)⟩

/--
C5: if, during the augmentation loop, some declared operation's derived
snake-case name does not name an attribute of the client state reached at
that operation, then `asyncify_client` raises the `AttributeError` for that
derived name right there: the loop halts (the remaining operations are
never processed), and the client — in the state it had at that moment —
keeps the `_async` attributes attached for all previously processed
operations, each still a callable.
-/
theorem asyncify_client_halts_at_missing (c cPre : Client C A R E)
    (pre post : List String) (failOp : String)
    (hops : c.operation_names = pre ++ failOp :: post)
    (hpre : asyncifyLoop pre c = (cPre, none))
    (hfail : getattrOpt cPre (_camel_to_snake failOp) = none) :
    asyncify_client c = (cPre, some (_camel_to_snake failOp)) ∧
    ∀ op ∈ pre, ∃ g,
      getattrOpt cPre (_camel_to_snake op ++ "_async") = some (PyVal.callable g) := by
  constructor
  · rw [asyncify_client, hops, asyncifyLoop_append pre c cPre hpre,
      asyncifyLoop_cons_none post hfail]
  · intro op hop
    have h2 : (asyncifyLoop pre c).2 = none := by rw [hpre]
    obtain ⟨g, hg⟩ := asyncifyLoop_attaches pre c h2 op hop
    rw [hpre] at hg
    exact ⟨g, hg⟩

/-- Witness for C5 at the concrete client `clientMissing`, whose second
operation `MissingOp` has no `missing_op` attribute. -/
theorem asyncify_client_halts_at_missing_witness :
    clientMissing.operation_names = ["FooBar"] ++ "MissingOp" :: [] ∧
    asyncifyLoop ["FooBar"] clientMissing = (clientMissingPre, none) ∧
    getattrOpt clientMissingPre (_camel_to_snake "MissingOp") = none ∧
    (asyncify_client clientMissing = (clientMissingPre, some (_camel_to_snake "MissingOp")) ∧
     ∀ op ∈ ["FooBar"], ∃ g,
       getattrOpt clientMissingPre (_camel_to_snake op ++ "_async") =
         some (PyVal.callable g)) :=
  ⟨rfl, rfl, rfl,
   asyncify_client_halts_at_missing clientMissing clientMissingPre
     ["FooBar"] [] "MissingOp" rfl rfl rfl⟩

/--
C6 counterexample: the claim "no attribute that existed on the client
before the call is removed or overwritten" fails on `clientClash`, which
already has a plain-data attribute `foo_async` — the derived `_async` name
of its declared operation `Foo`.  `asyncify_client` overwrites that
attribute with the new wrapper.
-/
theorem asyncify_client_overwrites_attr_cex :
    getattrOpt clientClash "foo_async" = some (PyVal.data 0) ∧
    getattrOpt (asyncify_client clientClash).1 "foo_async" ≠ some (PyVal.data 0) := by
  refine ⟨rfl, ?_⟩
  intro h
  have h2 : getattrOpt (asyncify_client clientClash).1 "foo_async" =
      some (create_async_func (PyVal.callable (fun _ _ => CallResult.ok 1))) := rfl
  rw [h2] at h
  simp [create_async_func] at h

/--
C6 amended: `asyncify_client` never removes an attribute, and the only
attributes it can overwrite are those whose name is a derived
`<_camel_to_snake op>_async` name of a declared operation: every attribute
present before augmentation is still present afterwards, and every
attribute whose name is not among the derived `_async` names — in
particular every original synchronous method not colliding with a derived
`_async` name — is still bound to exactly its old value.
-/
theorem asyncify_client_adds_only_async_names (c : Client C A R E)
    (n : String) (v : PyVal C A R E) (hv : getattrOpt c n = some v) :
    (getattrOpt (asyncify_client c).1 n).isSome = true ∧
    (n ∉ asyncNames c.operation_names → getattrOpt (asyncify_client c).1 n = some v) := by
  constructor
  · exact asyncifyLoop_keeps_present c.operation_names c n (by rw [hv]; rfl)
  · intro hn
    rw [asyncify_client, asyncifyLoop_preserves c.operation_names c n hn, hv]

/-- Witness for the amended C6 at the concrete client `clientFrame` and its
unrelated attribute `keep_me`. -/
theorem asyncify_client_adds_only_async_names_witness :
    getattrOpt clientFrame "keep_me" = some (PyVal.data 5) ∧
    ((getattrOpt (asyncify_client clientFrame).1 "keep_me").isSome = true ∧
     ("keep_me" ∉ asyncNames clientFrame.operation_names →
       getattrOpt (asyncify_client clientFrame).1 "keep_me" = some (PyVal.data 5))) :=
  ⟨rfl, asyncify_client_adds_only_async_names clientFrame "keep_me" (PyVal.data 5) rfl⟩

theorem string_append_right_cancel {s t : String} (u : String) (h : s ++ u = t ++ u) :
    s = t := by
  apply String.ext
  have hd : s.data ++ u.data = t.data ++ u.data := by
    rw [← String.data_append, ← String.data_append, h]
  exact List.append_cancel_right hd

theorem asyncifyLoop_attaches_exact (ops : List String) :
    ∀ c : Client C A R E,
      (∀ op1 ∈ ops, ∀ op2 ∈ ops, _camel_to_snake op1 ≠ asyncName op2) →
      (∀ op ∈ ops, (getattrOpt c (_camel_to_snake op)).isSome = true) →
      ∀ op ∈ ops, ∃ v, getattrOpt c (_camel_to_snake op) = some v ∧
        getattrOpt (asyncifyLoop ops c).1 (asyncName op) = some (create_async_func v) := by
  induction ops with
  | nil => intro c _ _ op hop; cases hop
  | cons o rest ih =>
    intro c hd hs op hop
    obtain ⟨v0, hv0⟩ := Option.isSome_iff_exists.1 (hs o (by simp))
    rw [asyncifyLoop_cons_some rest hv0]
    have hlook1 : ∀ op' ∈ rest,
        getattrOpt (setattr c (asyncName o) (create_async_func v0)) (_camel_to_snake op') =
          getattrOpt c (_camel_to_snake op') := by
      intro op' hop'
      exact getattr_setattr_ne c _
        (fun heq => hd op' (by simp [hop']) o (by simp) heq.symm)
    have hd' : ∀ op1 ∈ rest, ∀ op2 ∈ rest, _camel_to_snake op1 ≠ asyncName op2 :=
      fun op1 h1 op2 h2 => hd op1 (by simp [h1]) op2 (by simp [h2])
    have hs' : ∀ op' ∈ rest,
        (getattrOpt (setattr c (asyncName o) (create_async_func v0))
          (_camel_to_snake op')).isSome = true := by
      intro op' hop'; rw [hlook1 op' hop']; exact hs op' (by simp [hop'])
    rcases List.mem_cons.1 hop with heq | hmem
    · subst heq
      refine ⟨v0, hv0, ?_⟩
      by_cases hmemA : asyncName op ∈ asyncNames rest
      · simp only [asyncNames, List.mem_map] at hmemA
        obtain ⟨o', ho', hon⟩ := hmemA
        have hsnake : _camel_to_snake o' = _camel_to_snake op :=
          string_append_right_cancel "_async" hon
        obtain ⟨v, hva, hvb⟩ := ih _ hd' hs' o' ho'
        rw [hlook1 o' ho', hsnake, hv0] at hva
        have hvv : v = v0 := (Option.some.inj hva).symm
        subst hvv
        rw [hon] at hvb
        exact hvb
      · rw [asyncifyLoop_preserves rest _ _ hmemA]
        exact getattr_setattr_self c _ _
    · obtain ⟨v, hva, hvb⟩ := ih _ hd' hs' op hmem
      rw [hlook1 op hmem] at hva
      exact ⟨v, hva, hvb⟩

/--
C7 counterexample: on `clientCollide` — operations `GetFoo` and
`GetFooAsync`, where `_camel_to_snake "GetFooAsync" = "get_foo_async"`
collides with the derived `_async` name of `GetFoo` — the claim fails.
The original synchronous method of `GetFooAsync` returned 2; already after
the first pass the `get_foo_async` attribute behaves like a wrapper of
`get_foo` (returns 1), so that original method is not still present; and
the second-pass wrapper attached at `get_foo_async_async` also returns 1,
i.e. it wraps the previously attached `_async` wrapper, not the
operation's original synchronous method.
-/
theorem asyncify_twice_wraps_wrapper_cex :
    (getattrOpt clientCollide "get_foo_async" = some (PyVal.callable c7f2) ∧
     c7f2 0 0 = CallResult.ok 2) ∧
    (∀ g, getattrOpt clientCollide1 "get_foo_async" = some (PyVal.callable g) →
      g 0 0 = CallResult.ok 1) ∧
    (∃ g, getattrOpt clientCollide2 "get_foo_async_async" = some (PyVal.callable g) ∧
      g 0 0 = CallResult.ok 1) ∧
    (∀ w, getattrOpt clientCollide2 "get_foo_async_async" = some w →
      w ≠ create_async_func (PyVal.callable c7f2)) := by
  refine ⟨⟨rfl, rfl⟩, ?_, ⟨_, rfl, rfl⟩, ?_⟩
  · intro g hg
    have h1 : getattrOpt clientCollide1 "get_foo_async" =
        some (create_async_func (PyVal.callable c7f1)) := rfl
    rw [h1] at hg
    have h2 := Option.some.inj hg
    have h3 := PyVal.callable.inj h2
    rw [← h3]
    rfl
  · intro w hw hcontra
    have hactual : getattrOpt clientCollide2 "get_foo_async_async" =
        some (create_async_func (create_async_func (PyVal.callable c7f1))) := rfl
    rw [hactual] at hw
    have hw2 : create_async_func (create_async_func (PyVal.callable c7f1)) = w :=
      Option.some.inj hw
    have hcall : callVal w 0 0 = CallResult.ok 1 := by rw [← hw2]; rfl
    rw [hcontra] at hcall
    have h2 : callVal (create_async_func (PyVal.callable c7f2)) 0 0 = CallResult.ok 2 := rfl
    rw [h2] at hcall
    exact absurd (CallResult.ok.inj hcall) (by omega)

/--
C7 amended: provided the naming convention is collision-free on the client
— no operation's derived snake-case name equals another operation's derived
`_async` name — and every derived name resolves, calling `asyncify_client`
a second time on the augmented client leaves every original synchronous
method bound exactly as before the first call, and after the second pass
each declared operation's `_async` attribute is exactly the wrapper of the
still-present original synchronous method (looked up under the original
derived name), hence a callable, and not a wrapper of the previously
attached `_async` wrapper.
-/
theorem asyncify_client_twice_no_collision (c : Client C A R E)
    (hdisj : ∀ op1 ∈ c.operation_names, ∀ op2 ∈ c.operation_names,
      _camel_to_snake op1 ≠ _camel_to_snake op2 ++ "_async")
    (hlook : ∀ op ∈ c.operation_names,
      (getattrOpt c (_camel_to_snake op)).isSome = true) :
    (∀ op ∈ c.operation_names,
      getattrOpt (asyncify_client (asyncify_client c).1).1 (_camel_to_snake op) =
        getattrOpt c (_camel_to_snake op)) ∧
    (∀ op ∈ c.operation_names, ∃ v,
      getattrOpt c (_camel_to_snake op) = some v ∧
      getattrOpt (asyncify_client (asyncify_client c).1).1 (_camel_to_snake op ++ "_async") =
        some (create_async_func v)) := by
  have hops1 : ((asyncify_client c).1).operation_names = c.operation_names :=
    operation_names_asyncifyLoop c.operation_names c
  have hsync_not_async : ∀ op ∈ c.operation_names,
      _camel_to_snake op ∉ asyncNames c.operation_names := by
    intro op hop hmem
    simp only [asyncNames, List.mem_map] at hmem
    obtain ⟨o2, ho2, heq⟩ := hmem
    exact hdisj op hop o2 ho2 heq.symm
  have hpres1 : ∀ op ∈ c.operation_names,
      getattrOpt (asyncify_client c).1 (_camel_to_snake op) =
        getattrOpt c (_camel_to_snake op) := by
    intro op hop
    exact asyncifyLoop_preserves c.operation_names c _ (hsync_not_async op hop)
  have hlook1 : ∀ op ∈ ((asyncify_client c).1).operation_names,
      (getattrOpt (asyncify_client c).1 (_camel_to_snake op)).isSome = true := by
    rw [hops1]
    intro op hop
    rw [hpres1 op hop]
    exact hlook op hop
  have hpres2 : ∀ op ∈ c.operation_names,
      getattrOpt (asyncify_client (asyncify_client c).1).1 (_camel_to_snake op) =
        getattrOpt (asyncify_client c).1 (_camel_to_snake op) := by
    intro op hop
    apply asyncifyLoop_preserves
    rw [hops1]
    exact hsync_not_async op hop
  constructor
  · intro op hop
    rw [hpres2 op hop, hpres1 op hop]
  · intro op hop
    have hd1 : ∀ op1 ∈ ((asyncify_client c).1).operation_names,
        ∀ op2 ∈ ((asyncify_client c).1).operation_names,
        _camel_to_snake op1 ≠ asyncName op2 := by
      rw [hops1]
      exact fun a ha b hb => hdisj a ha b hb
    obtain ⟨v, hva, hvb⟩ :=
      asyncifyLoop_attaches_exact ((asyncify_client c).1).operation_names
        (asyncify_client c).1 hd1 hlook1 op (by rw [hops1]; exact hop)
    rw [hpres1 op hop] at hva
    exact ⟨v, hva, hvb⟩

/-- Witness for the amended C7 at the concrete collision-free client
`clientW`. -/
theorem asyncify_client_twice_no_collision_witness :
    (∀ op1 ∈ clientW.operation_names, ∀ op2 ∈ clientW.operation_names,
      _camel_to_snake op1 ≠ _camel_to_snake op2 ++ "_async") ∧
    (∀ op ∈ clientW.operation_names,
      (getattrOpt clientW (_camel_to_snake op)).isSome = true) ∧
    ((∀ op ∈ clientW.operation_names,
      getattrOpt (asyncify_client (asyncify_client clientW).1).1 (_camel_to_snake op) =
        getattrOpt clientW (_camel_to_snake op)) ∧
    (∀ op ∈ clientW.operation_names, ∃ v,
      getattrOpt clientW (_camel_to_snake op) = some v ∧
      getattrOpt (asyncify_client (asyncify_client clientW).1).1
          (_camel_to_snake op ++ "_async") = some (create_async_func v))) :=
  ⟨by decide, by decide,
   asyncify_client_twice_no_collision clientW (by decide) (by decide)⟩

theorem toNat_ofNat_lt {n : Nat} (h : n < 55296) : (Char.ofNat n).toNat = n := by
  rw [Char.ofNat, dif_pos (Or.inl h)]
  rfl

theorem isUpperA_eq_false_iff (c : Char) :
    isUpperA c = false ↔ ¬(65 ≤ c.toNat ∧ c.toNat ≤ 90) := by
  simp [isUpperA]

theorem isUpperA_toLower (c : Char) : isUpperA c.toLower = false := by
  simp only [Char.toLower]
  split
  · next h =>
    rw [isUpperA_eq_false_iff, toNat_ofNat_lt (by omega)]
    omega
  · next h =>
    rw [isUpperA_eq_false_iff]
    omega

theorem toLower_eq_self {c : Char} (h : isUpperA c = false) : c.toLower = c := by
  simp only [Char.toLower]
  rw [if_neg]
  rw [isUpperA_eq_false_iff] at h
  omega

theorem toLower_toLower (c : Char) : c.toLower.toLower = c.toLower :=
  toLower_eq_self (isUpperA_toLower c)

theorem sub1go_id (fuel : Nat) :
    ∀ l : List Char, (∀ c ∈ l, isUpperA c = false) → sub1go fuel l = l := by
  induction fuel with
  | zero => intro l _; rfl
  | succ fuel ih =>
    intro l h
    match l with
    | [] => rfl
    | [c] => rfl
    | c :: d :: [] => rfl
    | c :: d :: e :: rest2 =>
      have hd : isUpperA d = false := h d (by simp)
      rw [sub1go, if_neg (by simp [hd])]
      rw [ih (d :: e :: rest2) (fun x hx => h x (by simp at hx ⊢; tauto))]

theorem sub2_id : ∀ l : List Char, (∀ c ∈ l, isUpperA c = false) → sub2 l = l := by
  intro l
  induction l with
  | nil => intro _; rfl
  | cons c tl ih =>
    intro h
    match tl with
    | [] => rfl
    | d :: rest =>
      have hd : isUpperA d = false := h d (by simp)
      rw [sub2, if_neg (by simp [hd])]
      rw [ih (fun x hx => h x (by simp at hx ⊢; tauto))]

theorem map_toLower_invol (l : List Char) :
    (l.map Char.toLower).map Char.toLower = l.map Char.toLower := by
  induction l with
  | nil => rfl
  | cons c tl ih => simp [toLower_toLower, ih]

/--
C10: `_camel_to_snake` is idempotent — for every input string of (ASCII)
letters and digits, its output contains no uppercase letter, and applying
`_camel_to_snake` to its own output returns that output unchanged.
-/
theorem camel_to_snake_idempotent (s : String)
    (h : ∀ ch ∈ s.data, (isUpperA ch || isLowerA ch || isDigitA ch) = true) :
    (∀ ch ∈ (_camel_to_snake s).data, isUpperA ch = false) ∧
    _camel_to_snake (_camel_to_snake s) = _camel_to_snake s := by
  have hnoup : ∀ ch ∈ (sub2 (sub1 s.data)).map Char.toLower, isUpperA ch = false := by
    intro ch hch
    obtain ⟨c, _, rfl⟩ := List.mem_map.1 hch
    exact isUpperA_toLower c
  refine ⟨hnoup, ?_⟩
  show String.mk ((sub2 (sub1 ((sub2 (sub1 s.data)).map Char.toLower))).map Char.toLower) =
    String.mk ((sub2 (sub1 s.data)).map Char.toLower)
  have h1 : sub1 ((sub2 (sub1 s.data)).map Char.toLower) =
      (sub2 (sub1 s.data)).map Char.toLower :=
    sub1go_id _ _ hnoup
  rw [show sub1 ((sub2 (sub1 s.data)).map Char.toLower) =
    sub1go ((sub2 (sub1 s.data)).map Char.toLower).length
      ((sub2 (sub1 s.data)).map Char.toLower) from rfl] at h1
  show String.mk ((sub2 (sub1go ((sub2 (sub1 s.data)).map Char.toLower).length
      ((sub2 (sub1 s.data)).map Char.toLower))).map Char.toLower) =
    String.mk ((sub2 (sub1 s.data)).map Char.toLower)
  rw [h1, sub2_id _ hnoup, map_toLower_invol]

/-- Witness for C10 at the concrete alphanumeric string `TestHTTPMethod`. -/
theorem camel_to_snake_idempotent_witness :
    (∀ ch ∈ ("TestHTTPMethod" : String).data,
      (isUpperA ch || isLowerA ch || isDigitA ch) = true) ∧
    ((∀ ch ∈ (_camel_to_snake "TestHTTPMethod").data, isUpperA ch = false) ∧
     _camel_to_snake (_camel_to_snake "TestHTTPMethod") =
       _camel_to_snake "TestHTTPMethod") :=
  ⟨by decide, camel_to_snake_idempotent "TestHTTPMethod" (by decide)⟩

end Boto3Async
